import Mathlib

/-!
Shallow embedding of the columnar hash-aggregation flush logic found in
`src/query/expression/src/aggregate/payload_flush.rs` of the repository.

The flush routines themselves (`PartitionedPayload::flush`, `Payload::flush`,
`Payload::flush_column`, `PayloadFlushState::clear`, `take_group_columns`) are
translated directly from that source file.  The surrounding data model
(`Payload`, `Page`, `Column`, `DataType`, `ProbeState`, `BATCH_SIZE`) lives in
sibling files that are not part of the provided sources, so those definitions
are modelled from the specification, as marked on each one.

Raw row memory is embedded as a row view: a `Row` carries the values that the
source reads back out of the row bytes at the schema's fixed offsets (the hash
at `hash_offset`, the accumulator handle at `state_offset`, and for each
group-key column index `i` a `Cell` describing the memory at
`group_offsets[i]` under each read discipline together with the validity
boolean stored at `validity_offsets[i]`).  Fixed-size scratch arrays of length
`BATCH_SIZE` are embedded as lists holding the live prefix that the source
actually wrote.  A Rust panic (`todo!` / `unreachable!`) is embedded as
`Option.none`; the source functions have no error channel in their return
types.  `BATCH_SIZE` is an explicit parameter `bs` throughout, since its
defining constant is outside the provided sources.
-/

namespace Datafuse

/-- Modelled from the spec: the closed set of fixed-width numeric logical
types (the `NumberDataType` enumeration lives outside the provided sources;
§4.3 of the spec lists every integer/float width as a fixed-width scalar). -/
inductive NumberDataType
  | uint8
  | uint16
  | uint32
  | uint64
  | int8
  | int16
  | int32
  | int64
  | float32
  | float64
deriving DecidableEq

/-- Modelled from the spec: decimal columns distinguish 128-bit and 256-bit
backing representations by logical type tag (§4.3). -/
inductive DecimalDataType
  | decimal128
  | decimal256
deriving DecidableEq

/-- Modelled from the spec: the closed set of logical column types.  The
constructors are exactly the arms of the dispatch in
`Payload::flush_column`; the `DataType` enumeration itself lives outside the
provided sources. -/
inductive DataType
  | null
  | emptyArray
  | emptyMap
  | boolean
  | number (n : NumberDataType)
  | decimal (d : DecimalDataType)
  | timestamp
  | date
  | binary
  | string
  | bitmap
  | variant
  | geometry
  | nullable (inner : DataType)
  | array (inner : DataType)
  | map (inner : DataType)
  | tuple
  | generic
deriving DecidableEq

/-- Strip one `Nullable` wrapper, as `DataType::remove_nullable` does. -/
def DataType.remove_nullable : DataType → DataType
  | .nullable inner => inner
  | t => t

/-- Whether the type is a `Nullable` wrapper, as `DataType::is_nullable`. -/
def DataType.is_nullable : DataType → Bool
  | .nullable _ => true
  | _ => false

/-- The compound types whose unpacking is `todo!()` in
`Payload::flush_column`: array, map and tuple. -/
def DataType.isCompound : DataType → Bool
  | .array _ => true
  | .map _ => true
  | .tuple => true
  | _ => false

/-- A type is flush-supported when, after stripping a nullable wrapper, it
reaches one of the implemented arms of `Payload::flush_column` (neither a
`todo!()` compound arm nor an `unreachable!()` marker arm). -/
def DataType.flushSupported (t : DataType) : Bool :=
  match t.remove_nullable with
  | .nullable _ => false
  | .array _ => false
  | .map _ => false
  | .tuple => false
  | .generic => false
  | _ => true

/-- Modelled from the spec: the row view of the raw bytes stored for one
group-key column of one row.  `scalarVal` is the fixed-width scalar read at
the column's offset, `boolVal` the boolean read at the same offset, `bytesVal`
the out-of-line bytes reached through the (length, pointer) pair stored at the
offset, and `validityBit` the boolean stored at the column's validity
offset. -/
structure Cell where
  scalarVal : Int
  boolVal : Bool
  bytesVal : List Nat
  validityBit : Bool
deriving DecidableEq

/-- A cell of zeroed memory. -/
def defaultCell : Cell := ⟨0, false, [], false⟩

/-- Modelled from the spec: the row view of one stored row — the hash at the
schema's hash offset, the accumulator handle at the state offset, and one
`Cell` per group-key column. -/
structure Row where
  hash : Nat
  statePlace : Nat
  cells : List Cell
deriving DecidableEq

/-- A row of zeroed memory (a null row address). -/
def defaultRow : Row := ⟨0, 0, []⟩

/-- Modelled from the spec: a page holds its occupied rows contiguously in
insertion order; `Page.rows` below is the occupied-row count field. -/
structure Page where
  data : List Row
deriving DecidableEq

/-- The page's occupied row count (`page.rows` in the source). -/
def Page.rows (pg : Page) : Nat := pg.data.length

/-- An empty page. -/
def Page.empty : Page := ⟨[]⟩

/-- Modelled from the spec: the storage of one hash partition — its ordered
pages, the logical types of the group-key columns, and the registered
aggregate-function descriptors (only emptiness of `aggrs` is observed by
flush, so descriptors are embedded as `Unit`). -/
structure Payload where
  pages : List Page
  group_types : List DataType
  aggrs : List Unit
deriving DecidableEq

/-- An empty payload with no columns. -/
def Payload.empty : Payload := ⟨[], [], []⟩

/-- Modelled from the spec: a fixed array of payloads, one per hash
partition, sharing one row schema. -/
structure PartitionedPayload where
  payloads : List Payload
deriving DecidableEq

/-- Modelled from the spec: reusable per-batch scratch (row count and hash
values); the `ProbeState` struct lives outside the provided sources.  The
hash array of size `BATCH_SIZE` is embedded as the live prefix written by the
current batch. -/
structure ProbeState where
  row_count : Nat
  group_hashes : List Nat
deriving DecidableEq

/-- Modelled from the spec: a materialized output column.  The constructors
mirror the `Column` variants produced by `Payload::flush_column`; `String`
keeps the same bytes as the binary reading, since
`StringColumn::from_binary_unchecked` reinterprets them without
re-validation. -/
inductive Column
  | Null (len : Nat)
  | EmptyArray (len : Nat)
  | EmptyMap (len : Nat)
  | Boolean (vs : List Bool)
  | Number (nt : NumberDataType) (vs : List Int)
  | Decimal128 (vs : List Int)
  | Decimal256 (vs : List Int)
  | Timestamp (vs : List Int)
  | Date (vs : List Int)
  | Binary (vs : List (List Nat))
  | String (vs : List (List Nat))
  | Bitmap (vs : List (List Nat))
  | Variant (vs : List (List Nat))
  | Geometry (vs : List (List Nat))
  | Nullable (column : Column) (validity : List Bool)
deriving DecidableEq

/-- The row count of a column (`Column::len` in the repository; for a
nullable column it is the validity length). -/
def Column.len : Column → Nat
  | .Null n => n
  | .EmptyArray n => n
  | .EmptyMap n => n
  | .Boolean vs => vs.length
  | .Number _ vs => vs.length
  | .Decimal128 vs => vs.length
  | .Decimal256 vs => vs.length
  | .Timestamp vs => vs.length
  | .Date vs => vs.length
  | .Binary vs => vs.length
  | .String vs => vs.length
  | .Bitmap vs => vs.length
  | .Variant vs => vs.length
  | .Geometry vs => vs.length
  | .Nullable _ validity => validity.length

/-- The flush cursor and scratch, translated field by field from
`PayloadFlushState` in `payload_flush.rs`.  The fixed `[_; BATCH_SIZE]`
scratch arrays `addresses` and `state_places` are embedded as the live prefix
written by the current batch. -/
structure PayloadFlushState where
  probe_state : ProbeState
  group_columns : List Column
  aggregate_results : List Column
  row_count : Nat
  flush_partition : Nat
  flush_page : Nat
  flush_page_row : Nat
  addresses : List Row
  state_places : List Nat
deriving DecidableEq

/-- The fresh state built by `PayloadFlushState::default` (empty outputs,
cursor at the origin, zeroed scratch). -/
def PayloadFlushState.default : PayloadFlushState :=
  ⟨⟨0, []⟩, [], [], 0, 0, 0, 0, [], []⟩

/-- Translated from `PayloadFlushState::clear`: zero `row_count` and the
three cursor fields, touching nothing else. -/
def PayloadFlushState.clear (s : PayloadFlushState) : PayloadFlushState :=
  { s with row_count := 0, flush_partition := 0, flush_page := 0, flush_page_row := 0 }

/-- Translated from `PayloadFlushState::take_group_columns`
(`std::mem::take`): hand the accumulated group columns to the caller and
leave an empty vector behind. -/
def PayloadFlushState.take_group_columns (s : PayloadFlushState) :
    List Column × PayloadFlushState :=
  (s.group_columns, { s with group_columns := [] })

/-- Translated from `Payload::flush_type_column::<T>` instantiated at a
fixed-width scalar type `T`, reading at the column's own offset: for each
`idx` below the probe row count, read the scalar stored at
`addresses[idx] + col_offset`. -/
def flush_type_column_scalar (colIndex : Nat) (s : PayloadFlushState) : List Int :=
  (List.range s.probe_state.row_count).map fun idx =>
    ((s.addresses.getD idx defaultRow).cells.getD colIndex defaultCell).scalarVal

/-- Translated from `Payload::flush_type_column::<BooleanType>` applied at
the column's own offset. -/
def flush_type_column_bool (colIndex : Nat) (s : PayloadFlushState) : List Bool :=
  (List.range s.probe_state.row_count).map fun idx =>
    ((s.addresses.getD idx defaultRow).cells.getD colIndex defaultCell).boolVal

/-- Translated from `Payload::flush_type_column::<BooleanType>` applied at
the column's validity offset, as done for the nullable wrapper. -/
def flush_type_column_validity (colIndex : Nat) (s : PayloadFlushState) : List Bool :=
  (List.range s.probe_state.row_count).map fun idx =>
    ((s.addresses.getD idx defaultRow).cells.getD colIndex defaultCell).validityBit

/-- Translated from `Payload::flush_binary_column`: for each row of the
batch, follow the (length, pointer) pair stored at the column offset and
append the referenced bytes as one row of a binary builder. -/
def flush_binary_column (colIndex : Nat) (s : PayloadFlushState) : List (List Nat) :=
  (List.range s.probe_state.row_count).map fun idx =>
    ((s.addresses.getD idx defaultRow).cells.getD colIndex defaultCell).bytesVal

/-- Translated from `Payload::flush_string_column`:
`StringColumn::from_binary_unchecked` over the binary reading, which keeps
the bytes as they are without re-validating the encoding. -/
def flush_string_column (colIndex : Nat) (s : PayloadFlushState) : List (List Nat) :=
  flush_binary_column colIndex s

/-- Translated from `Payload::flush_column`: dispatch on the column's logical
type with the nullable wrapper stripped, materialize the inner column, then
re-attach the validity column when the declared type is nullable.  The
`todo!()` arms (array, map, tuple) and the `unreachable!()` arms (a nested
nullable, generic) are embedded as `none`, standing for the Rust panic that
aborts the call. -/
def flushColumnInner (dt : DataType) (colIndex : Nat) (s : PayloadFlushState) :
    Option Column :=
  match dt.remove_nullable with
  | .null => some (.Null s.probe_state.row_count)
  | .emptyArray => some (.EmptyArray s.probe_state.row_count)
  | .emptyMap => some (.EmptyMap s.probe_state.row_count)
  | .boolean => some (.Boolean (flush_type_column_bool colIndex s))
  | .number nt => some (.Number nt (flush_type_column_scalar colIndex s))
  | .decimal .decimal128 => some (.Decimal128 (flush_type_column_scalar colIndex s))
  | .decimal .decimal256 => some (.Decimal256 (flush_type_column_scalar colIndex s))
  | .timestamp => some (.Timestamp (flush_type_column_scalar colIndex s))
  | .date => some (.Date (flush_type_column_scalar colIndex s))
  | .binary => some (.Binary (flush_binary_column colIndex s))
  | .string => some (.String (flush_string_column colIndex s))
  | .bitmap => some (.Bitmap (flush_binary_column colIndex s))
  | .variant => some (.Variant (flush_binary_column colIndex s))
  | .geometry => some (.Geometry (flush_binary_column colIndex s))
  | .nullable _ => none
  | .array _ => none
  | .map _ => none
  | .tuple => none
  | .generic => none

/-- The nullable re-wrapping step at the end of `Payload::flush_column`:
when the declared type is nullable, read the validity booleans from the
validity offset and combine them with the inner column. -/
def flushColumnOfType (dt : DataType) (colIndex : Nat) (s : PayloadFlushState) :
    Option Column :=
  match flushColumnInner dt colIndex s with
  | none => none
  | some col =>
    if dt.is_nullable then
      some (.Nullable col (flush_type_column_validity colIndex s))
    else
      some col

/-- Translated from `Payload::flush_column`, reading the column's declared
logical type from the schema and dispatching on it. -/
def Payload.flush_column (p : Payload) (colIndex : Nat) (s : PayloadFlushState) :
    Option Column :=
  flushColumnOfType (p.group_types.getD colIndex DataType.null) colIndex s

/-- The per-column loop of `Payload::flush`: materialize each listed column
index in order, aborting the whole call if any column aborts. -/
def Payload.flushColumnsGo (p : Payload) (s : PayloadFlushState) :
    List Nat → Option (List Column)
  | [] => some []
  | i :: rest =>
    match p.flush_column i s with
    | none => none
    | some c =>
      match Payload.flushColumnsGo p s rest with
      | none => none
      | some cs => some (c :: cs)

/-- The batch-assembly block in the middle of `Payload::flush`: clamp the
batch to `BATCH_SIZE` rows and to the end of the current page, clear the
output columns, store the batch row count in the state and the probe
scratch, capture each batch row's address and hash, and capture its
accumulator handle when aggregate functions are registered. -/
def Payload.flushBatchState (bs : Nat) (p : Payload) (page : Page)
    (s : PayloadFlushState) : PayloadFlushState :=
  let endRow := min (s.flush_page_row + bs) page.rows
  let rows := endRow - s.flush_page_row
  let batch := (page.data.drop s.flush_page_row).take rows
  { s with
    group_columns := [],
    row_count := rows,
    probe_state := ⟨rows, batch.map Row.hash⟩,
    addresses := batch,
    state_places := if p.aggrs.isEmpty then s.state_places else batch.map Row.statePlace }

/-- The body of `Payload::flush`, with the pages still to visit made
explicit: the list argument is `p.pages.drop s.flush_page`, so the source's
guard `flush_page >= pages.len()` is the `[]` case, and advancing
`flush_page` and retrying is structural recursion on the tail (the source's
recursive call; `Payload::flush` never changes `flush_page` except by this
increment, so the dropped list tracks the cursor exactly). -/
def Payload.flushPages (bs : Nat) (p : Payload) :
    List Page → PayloadFlushState → Option (PayloadFlushState × Bool)
  | [], s => some (s, false)
  | page :: rest, s =>
    if page.rows ≤ s.flush_page_row then
      Payload.flushPages bs p rest
        { s with flush_page := s.flush_page + 1, flush_page_row := 0, row_count := 0 }
    else
      match Payload.flushColumnsGo p (Payload.flushBatchState bs p page s)
          (List.range p.group_types.length) with
      | none => none
      | some cols =>
        some ({ Payload.flushBatchState bs p page s with
          group_columns := cols,
          flush_page_row := min (s.flush_page_row + bs) page.rows }, true)

/-- Translated from `Payload::flush`: run the page loop from the cursor's
current page.  `none` embeds the panic of an unsupported column type;
`some (s1, b)` is the source's normal return of `b` with the state updated
in place. -/
def Payload.flush (bs : Nat) (p : Payload) (s : PayloadFlushState) :
    Option (PayloadFlushState × Bool) :=
  Payload.flushPages bs p (p.pages.drop s.flush_page) s

/-- The body of `PartitionedPayload::flush`, with the payloads still to visit
made explicit: the list argument is `pp.payloads.drop s.flush_partition`, so
the source's guard `flush_partition >= payloads.len()` is the `[]` case and
the cascade to the next partition is structural recursion on the tail
(`Payload::flush` never changes `flush_partition`, so the dropped list tracks
the cursor exactly). -/
def PartitionedPayload.flushPartitions (bs : Nat) (pp : PartitionedPayload) :
    List Payload → PayloadFlushState → Option (PayloadFlushState × Bool)
  | [], s => some (s, false)
  | p :: rest, s =>
    match Payload.flush bs p s with
    | none => none
    | some (s1, true) => some (s1, true)
    | some (s1, false) =>
      let partitionIdx := s1.flush_partition + 1
      PartitionedPayload.flushPartitions bs pp rest
        { s1.clear with flush_partition := partitionIdx }

/-- Translated from `PartitionedPayload::flush`: run the partition cascade
from the cursor's current partition. -/
def PartitionedPayload.flush (bs : Nat) (pp : PartitionedPayload)
    (s : PayloadFlushState) : Option (PayloadFlushState × Bool) :=
  PartitionedPayload.flushPartitions bs pp (pp.payloads.drop s.flush_partition) s

/-- All rows of a payload, in page order then in-page insertion order. -/
def Payload.allRows (p : Payload) : List Row :=
  (p.pages.map Page.data).flatten

/-- All rows of a partitioned payload, in partition-index order, then page
order, then in-page insertion order. -/
def PartitionedPayload.allRows (pp : PartitionedPayload) : List Row :=
  (pp.payloads.map Payload.allRows).flatten

/-- The rows a page list still holds relative to an in-page cursor position
`r` inside its first page. -/
def pagesRemaining (l : List Page) (r : Nat) : List Row :=
  match l with
  | [] => []
  | pg :: rest => pg.data.drop r ++ (rest.map Page.data).flatten

/-- The rows a payload list still holds relative to a page cursor `pg` inside
its first payload and an in-page cursor `r`. -/
def partRemaining (l : List Payload) (pg r : Nat) : List Row :=
  match l with
  | [] => []
  | p :: rest => pagesRemaining (p.pages.drop pg) r ++ (rest.map Payload.allRows).flatten

/-- Drive `PartitionedPayload::flush` repeatedly until it returns false,
collecting each produced batch as the list of row addresses it captured;
`none` when the fuel runs out or a call aborts. -/
def flushRowBatches (bs : Nat) (pp : PartitionedPayload) :
    Nat → PayloadFlushState → Option (List (List Row))
  | 0, _ => none
  | Nat.succ n, s =>
    match PartitionedPayload.flush bs pp s with
    | none => none
    | some (_, false) => some []
    | some (s1, true) =>
      match flushRowBatches bs pp n s1 with
      | none => none
      | some rest => some (s1.addresses :: rest)

/-- Drive `PartitionedPayload::flush` for at most `fuel` calls, recording for
each call its returned boolean together with the batch of group columns it
delivered (the empty list on a false return, which delivers no batch), and
stopping after a false return or an abort. -/
def flushIter (bs : Nat) (pp : PartitionedPayload) :
    Nat → PayloadFlushState → List (Bool × List Column)
  | 0, _ => []
  | Nat.succ n, s =>
    match PartitionedPayload.flush bs pp s with
    | none => []
    | some (s1, true) => (true, s1.group_columns) :: flushIter bs pp n s1
    | some (_, false) => [(false, [])]

/-- Helper for concrete executions: the state after one flush call (if the
call aborted, which never happens in the concrete scenarios below, the input
state is returned). -/
def afterCall (bs : Nat) (pp : PartitionedPayload) (s : PayloadFlushState) :
    PayloadFlushState :=
  ((PartitionedPayload.flush bs pp s).getD (s, false)).1

/-- Helper for concrete executions: the boolean returned by one flush call,
or `none` on abort. -/
def callResult (bs : Nat) (pp : PartitionedPayload) (s : PayloadFlushState) :
    Option Bool :=
  (PartitionedPayload.flush bs pp s).map Prod.snd

/-- Instrumented copy of `Payload.flushPages` that also counts the page
cascade steps (the recursive retries that advance `flush_page`). -/
def Payload.flushPagesInstr (bs : Nat) (p : Payload) :
    List Page → PayloadFlushState → Nat × Option (PayloadFlushState × Bool)
  | [], s => (0, some (s, false))
  | page :: rest, s =>
    if page.rows ≤ s.flush_page_row then
      let r := Payload.flushPagesInstr bs p rest
        { s with flush_page := s.flush_page + 1, flush_page_row := 0, row_count := 0 }
      (r.1 + 1, r.2)
    else
      (0, Payload.flushPages bs p (page :: rest) s)

/-- Instrumented copy of `PartitionedPayload.flushPartitions` that also
counts cascade steps: every page-advance step inside the visited payloads
plus one step for every partition advance. -/
def PartitionedPayload.flushPartitionsInstr (bs : Nat) (pp : PartitionedPayload) :
    List Payload → PayloadFlushState → Nat × Option (PayloadFlushState × Bool)
  | [], s => (0, some (s, false))
  | p :: rest, s =>
    let pageSteps := (Payload.flushPagesInstr bs p (p.pages.drop s.flush_page) s).1
    match Payload.flush bs p s with
    | none => (pageSteps, none)
    | some (s1, true) => (pageSteps, some (s1, true))
    | some (s1, false) =>
      let r := PartitionedPayload.flushPartitionsInstr bs pp rest
        { s1.clear with flush_partition := s1.flush_partition + 1 }
      (pageSteps + 1 + r.1, r.2)

/-- A row holding a single integer group-key cell with value `v`. -/
def intRow (v : Int) : Row := ⟨0, 0, [⟨v, false, [], false⟩]⟩

/-- A page of single-integer rows. -/
def pageOf (vs : List Int) : Page := ⟨vs.map intRow⟩

/-- Scenario 1 of the spec: one partition, one page of six rows of one
non-nullable 64-bit integer group column. -/
def scenarioOne : PartitionedPayload :=
  ⟨[⟨[pageOf [10, 20, 30, 40, 50, 60]], [.number .int64], []⟩]⟩

/-- Scenario 2 of the spec: two partitions, partition 0 empty, partition 1
holding three rows. -/
def scenarioTwo : PartitionedPayload :=
  ⟨[⟨[], [.number .int64], []⟩, ⟨[pageOf [1, 2, 3]], [.number .int64], []⟩]⟩

/-- Dropping one element more after a drop that uncovered a cons. -/
theorem drop_succ_of_drop_cons {α : Type} {l t : List α} {a : α} {n : Nat}
    (h : l.drop n = a :: t) : l.drop (n + 1) = t := by
  have h2 := congrArg (List.drop 1) h
  rw [List.drop_drop] at h2
  simpa using h2

/-- Indexing under a drop that uncovered a cons. -/
theorem getD_of_drop_cons {α : Type} {l t : List α} {a : α} {n : Nat}
    (h : l.drop n = a :: t) (d : α) : l.getD n d = a := by
  rw [List.getD_eq_getElem?_getD]
  have h2 : l[n]? = (l.drop n)[0]? := by simp [List.getElem?_drop]
  rw [h2, h]
  simp

/-- From the start of a page list, the remaining rows are all rows. -/
theorem pagesRemaining_zero (l : List Page) :
    pagesRemaining l 0 = (l.map Page.data).flatten := by
  cases l with
  | nil => rfl
  | cons pg rest => simp [pagesRemaining]

/-- From the start of a payload list, the remaining rows are all rows. -/
theorem partRemaining_zero (l : List Payload) :
    partRemaining l 0 0 = (l.map Payload.allRows).flatten := by
  cases l with
  | nil => rfl
  | cons p rest => simp [partRemaining, pagesRemaining_zero, Payload.allRows]

/-- `Payload.flushPages` never touches the partition cursor or the
accumulated aggregate results, and on a false return it also leaves the
group columns, the scratch addresses, the state places and the probe scratch
exactly as it found them. -/
theorem flushPages_frame (bs : Nat) (p : Payload) :
    ∀ (l : List Page) (s s1 : PayloadFlushState) (b : Bool),
      Payload.flushPages bs p l s = some (s1, b) →
      s1.flush_partition = s.flush_partition ∧
      s1.aggregate_results = s.aggregate_results ∧
      (b = false → s1.group_columns = s.group_columns ∧ s1.addresses = s.addresses ∧
        s1.state_places = s.state_places ∧ s1.probe_state = s.probe_state) := by
  intro l
  induction l with
  | nil =>
    intro s s1 b h
    simp [Payload.flushPages] at h
    obtain ⟨h1, h2⟩ := h
    subst h1
    subst h2
    simp
  | cons page rest ih =>
    intro s s1 b h
    simp only [Payload.flushPages] at h
    split at h
    · simpa using ih _ _ _ h
    · split at h
      · exact absurd h (by simp)
      · simp only [Option.some.injEq, Prod.mk.injEq] at h
        obtain ⟨h1, h2⟩ := h
        subst h1
        subst h2
        simp [Payload.flushBatchState]

/-- The column dispatch reads only the probe row count and the captured row
addresses of the state. -/
theorem flushColumnOfType_congr (dt : DataType) (i : Nat) (s t : PayloadFlushState)
    (h1 : s.probe_state.row_count = t.probe_state.row_count)
    (h2 : s.addresses = t.addresses) :
    flushColumnOfType dt i s = flushColumnOfType dt i t := by
  simp only [flushColumnOfType, flushColumnInner, flush_type_column_scalar,
    flush_type_column_bool, flush_type_column_validity, flush_string_column,
    flush_binary_column]
  rw [h1, h2]

/-- `flush_column` reads only the probe row count and the captured row
addresses of the state. -/
theorem flush_column_congr (p : Payload) (i : Nat) (s t : PayloadFlushState)
    (h1 : s.probe_state.row_count = t.probe_state.row_count)
    (h2 : s.addresses = t.addresses) :
    p.flush_column i s = p.flush_column i t :=
  flushColumnOfType_congr (p.group_types.getD i DataType.null) i s t h1 h2

/-- The per-column loop reads only the probe row count and the captured row
addresses of the state. -/
theorem flushColumnsGo_congr (p : Payload) (s t : PayloadFlushState)
    (h1 : s.probe_state.row_count = t.probe_state.row_count)
    (h2 : s.addresses = t.addresses) :
    ∀ idxs : List Nat, Payload.flushColumnsGo p s idxs = Payload.flushColumnsGo p t idxs := by
  intro idxs
  induction idxs with
  | nil => rfl
  | cons i rest ih =>
    simp only [Payload.flushColumnsGo, flush_column_congr p i s t h1 h2, ih]

/-- When every listed column materializes, the loop collects exactly one
column per index, in order. -/
theorem flushColumnsGo_spec (p : Payload) (s : PayloadFlushState) :
    ∀ (idxs : List Nat) (cols : List Column),
      Payload.flushColumnsGo p s idxs = some cols →
      cols.length = idxs.length ∧
        ∀ j, j < idxs.length →
          p.flush_column (idxs.getD j 0) s = some (cols.getD j (.Null 0)) := by
  intro idxs
  induction idxs with
  | nil =>
    intro cols h
    simp [Payload.flushColumnsGo] at h
    subst h
    simp
  | cons i rest ih =>
    intro cols h
    simp only [Payload.flushColumnsGo] at h
    cases hc : p.flush_column i s with
    | none => rw [hc] at h; exact absurd h (by simp)
    | some c =>
      rw [hc] at h
      cases hgo : Payload.flushColumnsGo p s rest with
      | none => rw [hgo] at h; exact absurd h (by simp)
      | some cs =>
        rw [hgo] at h
        simp only [Option.some.injEq] at h
        subst h
        obtain ⟨hlen, hall⟩ := ih cs hgo
        refine ⟨by simp [hlen], ?_⟩
        intro j hj
        cases j with
        | zero => simpa using hc
        | succ j =>
          simp only [List.getD_cons_succ]
          exact hall j (by simpa using hj)

/-- The loop succeeds when no listed column aborts. -/
theorem flushColumnsGo_some (p : Payload) (s : PayloadFlushState) :
    ∀ idxs : List Nat, (∀ i ∈ idxs, p.flush_column i s ≠ none) →
      ∃ cols, Payload.flushColumnsGo p s idxs = some cols := by
  intro idxs
  induction idxs with
  | nil => exact fun _ => ⟨[], rfl⟩
  | cons i rest ih =>
    intro h
    obtain ⟨cs, hcs⟩ := ih fun j hj => h j (List.mem_cons_of_mem i hj)
    cases hc : p.flush_column i s with
    | none => exact absurd hc (h i (List.mem_cons_self i rest))
    | some c => exact ⟨c :: cs, by simp [Payload.flushColumnsGo, hc, hcs]⟩

/-- The loop aborts as soon as any listed column aborts. -/
theorem flushColumnsGo_none (p : Payload) (s : PayloadFlushState) :
    ∀ (idxs : List Nat) (i : Nat), i ∈ idxs → p.flush_column i s = none →
      Payload.flushColumnsGo p s idxs = none := by
  intro idxs
  induction idxs with
  | nil => intro i h; exact absurd h (List.not_mem_nil i)
  | cons a rest ih =>
    intro i hmem hnone
    rcases List.mem_cons.mp hmem with h | h
    · subst h
      simp [Payload.flushColumnsGo, hnone]
    · cases hc : p.flush_column a s with
      | none => simp [Payload.flushColumnsGo, hc]
      | some c => simp [Payload.flushColumnsGo, hc, ih i h hnone]

/-- Every column the inner dispatch materializes has exactly the probe row
count as its length. -/
theorem flushColumnInner_len (dt : DataType) (i : Nat) (s : PayloadFlushState)
    (c : Column) (h : flushColumnInner dt i s = some c) :
    c.len = s.probe_state.row_count := by
  unfold flushColumnInner at h
  split at h <;>
    simp at h <;>
    subst h <;>
    simp [Column.len, flush_type_column_scalar, flush_type_column_bool,
      flush_binary_column, flush_string_column]

/-- A flush-supported column type never aborts the column dispatch. -/
theorem flushColumnOfType_ne_none (dt : DataType) (i : Nat) (s : PayloadFlushState)
    (h : dt.flushSupported = true) : flushColumnOfType dt i s ≠ none := by
  intro hnone
  unfold flushColumnOfType at hnone
  cases hin : flushColumnInner dt i s with
  | some col =>
    rw [hin] at hnone
    cases hb : dt.is_nullable <;> simp [hb] at hnone
  | none =>
    unfold flushColumnInner at hin
    unfold DataType.flushSupported at h
    split at hin <;> simp_all

/-- A flush-supported column type never aborts `flush_column`. -/
theorem flush_column_ne_none (p : Payload) (i : Nat) (s : PayloadFlushState)
    (h : DataType.flushSupported (p.group_types.getD i DataType.null) = true) :
    p.flush_column i s ≠ none :=
  flushColumnOfType_ne_none (p.group_types.getD i DataType.null) i s h

/-- A compound column type (array, map or tuple after stripping a nullable
wrapper) always aborts the column dispatch. -/
theorem flushColumnOfType_none_of_compound (dt : DataType) (i : Nat)
    (s : PayloadFlushState) (h : (dt.remove_nullable).isCompound = true) :
    flushColumnOfType dt i s = none := by
  unfold flushColumnOfType
  cases hin : flushColumnInner dt i s with
  | none => rfl
  | some col =>
    exfalso
    unfold flushColumnInner at hin
    unfold DataType.isCompound at h
    split at hin <;> simp_all

/-- A compound column type always aborts `flush_column`. -/
theorem flush_column_none_of_compound (p : Payload) (i : Nat) (s : PayloadFlushState)
    (h : ((p.group_types.getD i DataType.null).remove_nullable).isCompound = true) :
    p.flush_column i s = none :=
  flushColumnOfType_none_of_compound (p.group_types.getD i DataType.null) i s h

/-- Every column that the dispatch materializes has exactly the probe row
count as its length, and for a nullable declared type it is a tagged
nullable column whose validity length and inner data length both equal that
row count. -/
theorem flushColumnOfType_shape (dt : DataType) (i : Nat) (s : PayloadFlushState)
    (c : Column) (h : flushColumnOfType dt i s = some c) :
    c.len = s.probe_state.row_count ∧
      (dt.is_nullable = true →
        ∃ inner validity, c = Column.Nullable inner validity ∧
          validity.length = s.probe_state.row_count ∧
          inner.len = s.probe_state.row_count) := by
  unfold flushColumnOfType at h
  cases hin : flushColumnInner dt i s with
  | none => rw [hin] at h; exact absurd h (by simp)
  | some col =>
    rw [hin] at h
    have hlen := flushColumnInner_len dt i s col hin
    cases hb : dt.is_nullable with
    | true =>
      rw [hb] at h
      simp only [if_true, Option.some.injEq] at h
      subst h
      refine ⟨by simp [Column.len, flush_type_column_validity], fun _ => ?_⟩
      exact ⟨col, _, rfl, by simp [flush_type_column_validity], hlen⟩
    | false =>
      rw [hb] at h
      simp only [Bool.false_eq_true, if_false, Option.some.injEq] at h
      subst h
      exact ⟨hlen, fun hcontra => absurd hcontra (by simp [hb])⟩

/-- Every column that `flush_column` materializes has the probe row count as
its length; nullable declared types yield a tagged nullable column with
validity length and inner length both equal to that row count. -/
theorem flush_column_shape (p : Payload) (i : Nat) (s : PayloadFlushState)
    (c : Column) (h : p.flush_column i s = some c) :
    c.len = s.probe_state.row_count ∧
      ((p.group_types.getD i DataType.null).is_nullable = true →
        ∃ inner validity, c = Column.Nullable inner validity ∧
          validity.length = s.probe_state.row_count ∧
          inner.len = s.probe_state.row_count) :=
  flushColumnOfType_shape (p.group_types.getD i DataType.null) i s c h

/-- `List.getD` of an index below the length is a member of the list. -/
theorem getD_mem {α : Type} (l : List α) (n : Nat) (d : α) (h : n < l.length) :
    l.getD n d ∈ l := by
  rw [List.getD_eq_getElem l d h]
  exact List.getElem_mem h

/-- When no rows remain from the cursor on, the page loop returns false. -/
theorem flushPages_exhausted (bs : Nat) (p : Payload) :
    ∀ (l : List Page) (s : PayloadFlushState),
      pagesRemaining l s.flush_page_row = [] →
      ∃ s1, Payload.flushPages bs p l s = some (s1, false) := by
  intro l
  induction l with
  | nil => intro s _; exact ⟨s, rfl⟩
  | cons pg rest ih =>
    intro s h
    obtain ⟨h1, h2⟩ := List.append_eq_nil.mp h
    have hle : pg.rows ≤ s.flush_page_row := by
      have := List.drop_eq_nil_iff.mp h1
      simpa [Page.rows] using this
    simp only [Payload.flushPages]
    rw [if_pos hle]
    apply ih
    show pagesRemaining rest 0 = []
    rw [pagesRemaining_zero]
    exact h2

/-- When rows remain from the cursor on and every group type is supported,
the page loop produces a batch: at least one and at most `bs` rows, taken as
a prefix of the remaining rows, leaving exactly the rest for the next call,
with the group columns materialized by the per-column loop, and with a
short batch occurring only at the end of its page. -/
theorem flushPages_batch (bs : Nat) (p : Payload) (hbs : 0 < bs)
    (hsup : ∀ t ∈ p.group_types, t.flushSupported = true) :
    ∀ (l : List Page) (s : PayloadFlushState),
      l = p.pages.drop s.flush_page →
      pagesRemaining l s.flush_page_row ≠ [] →
      ∃ s1, Payload.flushPages bs p l s = some (s1, true) ∧
        s1.flush_partition = s.flush_partition ∧
        s1.aggregate_results = s.aggregate_results ∧
        1 ≤ s1.row_count ∧ s1.row_count ≤ bs ∧
        s1.row_count ≤ (pagesRemaining l s.flush_page_row).length ∧
        s1.addresses = (pagesRemaining l s.flush_page_row).take s1.row_count ∧
        pagesRemaining (p.pages.drop s1.flush_page) s1.flush_page_row =
          (pagesRemaining l s.flush_page_row).drop s1.row_count ∧
        s1.probe_state.row_count = s1.row_count ∧
        Payload.flushColumnsGo p s1 (List.range p.group_types.length) =
          some s1.group_columns ∧
        (s1.row_count < bs → s1.flush_page_row = (p.pages.getD s1.flush_page Page.empty).rows) ∧
        (s1.flush_page_row < (p.pages.getD s1.flush_page Page.empty).rows →
          s1.row_count = bs) := by
  intro l
  induction l with
  | nil => intro s _ hrem; exact absurd rfl hrem
  | cons pg rest ih =>
    intro s hinv hrem
    by_cases hle : pg.rows ≤ s.flush_page_row
    · have h1 : pg.data.drop s.flush_page_row = [] :=
        List.drop_eq_nil_iff.mpr (by simpa [Page.rows] using hle)
      have hremeq : pagesRemaining (pg :: rest) s.flush_page_row = pagesRemaining rest 0 := by
        rw [pagesRemaining_zero]
        simp [pagesRemaining, h1]
      have hinv2 : rest = p.pages.drop (s.flush_page + 1) :=
        (drop_succ_of_drop_cons hinv.symm).symm
      obtain ⟨s1, hflush, hrest⟩ := ih
        { s with flush_page := s.flush_page + 1, flush_page_row := 0, row_count := 0 }
        hinv2 (by rw [show pagesRemaining rest 0 = pagesRemaining (pg :: rest) s.flush_page_row
          from hremeq.symm] at *; exact (by simpa using hrem))
      refine ⟨s1, ?_, ?_⟩
      · simp only [Payload.flushPages]
        rw [if_pos hle]
        exact hflush
      · rw [hremeq]
        simpa using hrest
    · push_neg at hle
      have hinvpg : p.pages.drop s.flush_page = pg :: rest := hinv.symm
      have hkseg : min (s.flush_page_row + bs) pg.rows - s.flush_page_row ≤
          (pg.data.drop s.flush_page_row).length := by
        rw [List.length_drop]
        have hpg : pg.data.length = pg.rows := rfl
        omega
      obtain ⟨cols, hcols⟩ := flushColumnsGo_some p (Payload.flushBatchState bs p pg s)
        (List.range p.group_types.length)
        (fun i hi => flush_column_ne_none p i _
          (hsup _ (getD_mem p.group_types i DataType.null (List.mem_range.mp hi))))
      refine ⟨{ Payload.flushBatchState bs p pg s with
          group_columns := cols,
          flush_page_row := min (s.flush_page_row + bs) pg.rows },
        ?_, ?_, ?_, ?_, ?_, ?_, ?_, ?_, ?_, ?_, ?_, ?_⟩
      · simp only [Payload.flushPages]
        rw [if_neg (by omega), hcols]
      · simp [Payload.flushBatchState]
      · simp [Payload.flushBatchState]
      · simp only [Payload.flushBatchState]
        omega
      · simp only [Payload.flushBatchState]
        omega
      · simp only [Payload.flushBatchState, pagesRemaining, List.length_append]
        omega
      · show (Payload.flushBatchState bs p pg s).addresses = _
        simp only [Payload.flushBatchState, pagesRemaining]
        rw [List.take_append_of_le_length hkseg]
      · show pagesRemaining (p.pages.drop s.flush_page) (min (s.flush_page_row + bs) pg.rows) =
          _
        rw [hinvpg]
        simp only [Payload.flushBatchState, pagesRemaining]
        rw [List.drop_append_of_le_length hkseg, List.drop_drop]
        have harith : s.flush_page_row +
            (min (s.flush_page_row + bs) pg.rows - s.flush_page_row) =
            min (s.flush_page_row + bs) pg.rows := by omega
        rw [harith]
      · simp [Payload.flushBatchState]
      · refine Eq.trans
          (flushColumnsGo_congr p
            { Payload.flushBatchState bs p pg s with
              group_columns := cols,
              flush_page_row := min (s.flush_page_row + bs) pg.rows }
            (Payload.flushBatchState bs p pg s) rfl rfl
            (List.range p.group_types.length)) ?_
        exact hcols
      · intro hklt
        simp only [Payload.flushBatchState] at hklt
        show min (s.flush_page_row + bs) pg.rows = (p.pages.getD s.flush_page Page.empty).rows
        rw [getD_of_drop_cons hinvpg]
        omega
      · intro hlt2
        simp only [Payload.flushBatchState] at hlt2 ⊢
        rw [getD_of_drop_cons hinvpg] at hlt2
        omega

/-- `PartitionedPayload.flushPartitions` never touches the accumulated
aggregate results; on a false return it also leaves the group columns
untouched and has advanced the partition cursor past every visited
payload. -/
theorem flushPartitions_frame (bs : Nat) (pp : PartitionedPayload) :
    ∀ (l : List Payload) (s s1 : PayloadFlushState) (b : Bool),
      PartitionedPayload.flushPartitions bs pp l s = some (s1, b) →
      s1.aggregate_results = s.aggregate_results ∧
      (b = false → s1.group_columns = s.group_columns ∧
        s1.flush_partition = s.flush_partition + l.length) := by
  intro l
  induction l with
  | nil =>
    intro s s1 b h
    simp [PartitionedPayload.flushPartitions] at h
    obtain ⟨h1, h2⟩ := h
    subst h1
    subst h2
    simp
  | cons p rest ih =>
    intro s s1 b h
    simp only [PartitionedPayload.flushPartitions] at h
    cases hf : Payload.flush bs p s with
    | none => rw [hf] at h; exact absurd h (by simp)
    | some r =>
      obtain ⟨s2, b2⟩ := r
      obtain ⟨hfp2, haggr2, hfalse2⟩ := flushPages_frame bs p _ s s2 b2 hf
      rw [hf] at h
      cases b2 with
      | true =>
        simp only [Option.some.injEq, Prod.mk.injEq] at h
        obtain ⟨h1, h2⟩ := h
        subst h1
        subst h2
        exact ⟨haggr2, by simp⟩
      | false =>
        obtain ⟨haggr3, hfalse3⟩ := ih _ s1 b h
        refine ⟨by simp [PayloadFlushState.clear] at haggr3; rw [haggr3, haggr2], ?_⟩
        intro hb
        obtain ⟨hgc3, hpart3⟩ := hfalse3 hb
        obtain ⟨hgc2, _, _, _⟩ := hfalse2 rfl
        refine ⟨by simp [PayloadFlushState.clear] at hgc3; rw [hgc3, hgc2], ?_⟩
        simp only [PayloadFlushState.clear] at hpart3
        simp only [List.length_cons]
        omega

/-- When no rows remain anywhere from the cursor's partition on, the
partition cascade returns false. -/
theorem flushPartitions_exhausted (bs : Nat) (pp : PartitionedPayload) :
    ∀ (l : List Payload) (s : PayloadFlushState),
      partRemaining l s.flush_page s.flush_page_row = [] →
      ∃ s1, PartitionedPayload.flushPartitions bs pp l s = some (s1, false) := by
  intro l
  induction l with
  | nil => intro s _; exact ⟨s, rfl⟩
  | cons p rest ih =>
    intro s h
    obtain ⟨h1, h2⟩ := List.append_eq_nil.mp h
    obtain ⟨s2, hs2⟩ := flushPages_exhausted bs p (p.pages.drop s.flush_page) s h1
    have hflush : Payload.flush bs p s = some (s2, false) := hs2
    obtain ⟨s1, hs1⟩ := ih
      { s2.clear with flush_partition := s2.flush_partition + 1 }
      (by
        show partRemaining rest 0 0 = []
        rw [partRemaining_zero]
        exact h2)
    refine ⟨s1, ?_⟩
    simp only [PartitionedPayload.flushPartitions]
    rw [hflush]
    exact hs1

/-- When rows remain from the cursor on and every group type of every
partition is supported, the partition cascade produces a batch that is a
nonempty prefix of the remaining rows, bounded by `bs`, leaving exactly the
rest, with the group columns materialized from the partition the cursor
lands on. -/
theorem flushPartitions_batch (bs : Nat) (pp : PartitionedPayload) (hbs : 0 < bs)
    (hsup : ∀ p ∈ pp.payloads, ∀ t ∈ p.group_types, t.flushSupported = true) :
    ∀ (l : List Payload) (s : PayloadFlushState),
      l = pp.payloads.drop s.flush_partition →
      partRemaining l s.flush_page s.flush_page_row ≠ [] →
      ∃ s1, PartitionedPayload.flushPartitions bs pp l s = some (s1, true) ∧
        s1.aggregate_results = s.aggregate_results ∧
        1 ≤ s1.row_count ∧ s1.row_count ≤ bs ∧
        s1.row_count ≤ (partRemaining l s.flush_page s.flush_page_row).length ∧
        s1.addresses = (partRemaining l s.flush_page s.flush_page_row).take s1.row_count ∧
        partRemaining (pp.payloads.drop s1.flush_partition) s1.flush_page s1.flush_page_row =
          (partRemaining l s.flush_page s.flush_page_row).drop s1.row_count ∧
        s1.probe_state.row_count = s1.row_count ∧
        Payload.flushColumnsGo (pp.payloads.getD s1.flush_partition Payload.empty) s1
          (List.range (pp.payloads.getD s1.flush_partition Payload.empty).group_types.length) =
          some s1.group_columns ∧
        (s1.row_count < bs → s1.flush_page_row =
          ((pp.payloads.getD s1.flush_partition Payload.empty).pages.getD
            s1.flush_page Page.empty).rows) ∧
        (s1.flush_page_row <
          ((pp.payloads.getD s1.flush_partition Payload.empty).pages.getD
            s1.flush_page Page.empty).rows → s1.row_count = bs) := by
  intro l
  induction l with
  | nil => intro s _ hrem; exact absurd rfl hrem
  | cons p rest ih =>
    intro s hinv hrem
    have hp : pp.payloads.drop s.flush_partition = p :: rest := hinv.symm
    have hpmem : p ∈ pp.payloads :=
      List.drop_subset s.flush_partition pp.payloads (hp ▸ List.mem_cons_self p rest)
    have hgetp : pp.payloads.getD s.flush_partition Payload.empty = p :=
      getD_of_drop_cons hp Payload.empty
    by_cases hP : pagesRemaining (p.pages.drop s.flush_page) s.flush_page_row = []
    · obtain ⟨s2, hs2⟩ := flushPages_exhausted bs p (p.pages.drop s.flush_page) s hP
      have hflush : Payload.flush bs p s = some (s2, false) := hs2
      obtain ⟨hfp2, haggr2, hframe2⟩ := flushPages_frame bs p _ s s2 false hs2
      have hinv2 : rest = pp.payloads.drop
          ({ s2.clear with flush_partition := s2.flush_partition + 1 } :
            PayloadFlushState).flush_partition := by
        show rest = pp.payloads.drop (s2.flush_partition + 1)
        rw [hfp2]
        exact (drop_succ_of_drop_cons hp).symm
      have hremeq : partRemaining (p :: rest) s.flush_page s.flush_page_row =
          partRemaining rest 0 0 := by
        rw [partRemaining_zero]
        simp [partRemaining, hP]
      obtain ⟨s1, hs1, hrest⟩ := ih
        { s2.clear with flush_partition := s2.flush_partition + 1 }
        hinv2
        (by
          show partRemaining rest 0 0 ≠ []
          rw [← hremeq]
          exact hrem)
      refine ⟨s1, ?_, ?_⟩
      · simp only [PartitionedPayload.flushPartitions]
        rw [hflush]
        exact hs1
      · rw [hremeq]
        obtain ⟨ha, hb⟩ := And.intro hrest.1 hrest.2
        refine ⟨?_, ?_⟩
        · rw [ha]
          simp [PayloadFlushState.clear, haggr2]
        · simpa using hb
    · obtain ⟨s1, hs1, hfp1, haggr1, hk1, hkbs, hklen, haddr, hcont, hprobe, hcols,
        hshort, hmid⟩ :=
        flushPages_batch bs p hbs (hsup p hpmem) (p.pages.drop s.flush_page) s rfl hP
      have hflush : Payload.flush bs p s = some (s1, true) := hs1
      have hkseg : s1.row_count ≤
          (pagesRemaining (p.pages.drop s.flush_page) s.flush_page_row).length := hklen
      refine ⟨s1, ?_, haggr1, hk1, hkbs, ?_, ?_, ?_, hprobe, ?_, ?_, ?_⟩
      · simp only [PartitionedPayload.flushPartitions]
        rw [hflush]
      · simp only [partRemaining, List.length_append]
        omega
      · simp only [partRemaining]
        rw [List.take_append_of_le_length hkseg]
        exact haddr
      · rw [hfp1, hp]
        simp only [partRemaining]
        rw [List.drop_append_of_le_length hkseg, hcont]
      · rw [hfp1, hgetp]
        exact hcols
      · rw [hfp1, hgetp]
        exact hshort
      · rw [hfp1, hgetp]
        exact hmid

/-- Driving the flush loop with enough fuel collects batches that
concatenate to exactly the remaining rows, with row counts summing to the
remaining row count. -/
theorem flushRowBatches_spec (bs : Nat) (pp : PartitionedPayload) (hbs : 0 < bs)
    (hsup : ∀ p ∈ pp.payloads, ∀ t ∈ p.group_types, t.flushSupported = true) :
    ∀ (fuel : Nat) (s : PayloadFlushState),
      (partRemaining (pp.payloads.drop s.flush_partition)
        s.flush_page s.flush_page_row).length < fuel →
      ∃ batches, flushRowBatches bs pp fuel s = some batches ∧
        batches.flatten = partRemaining (pp.payloads.drop s.flush_partition)
          s.flush_page s.flush_page_row ∧
        (batches.map List.length).sum = (partRemaining (pp.payloads.drop s.flush_partition)
          s.flush_page s.flush_page_row).length := by
  intro fuel
  induction fuel with
  | zero => intro s h; omega
  | succ n ih =>
    intro s hfuel
    by_cases hrem : partRemaining (pp.payloads.drop s.flush_partition)
        s.flush_page s.flush_page_row = []
    · obtain ⟨s1, hs1⟩ := flushPartitions_exhausted bs pp
        (pp.payloads.drop s.flush_partition) s hrem
      have hflush : PartitionedPayload.flush bs pp s = some (s1, false) := hs1
      refine ⟨[], ?_, by simp [hrem], by simp [hrem]⟩
      show flushRowBatches bs pp (n + 1) s = some []
      simp only [flushRowBatches, hflush]
    · obtain ⟨s1, hs1, _, hk1, _, hklen, haddr, hcont, _, _, _, _⟩ :=
        flushPartitions_batch bs pp hbs hsup (pp.payloads.drop s.flush_partition) s rfl hrem
      have hlen1 : (partRemaining (pp.payloads.drop s1.flush_partition)
          s1.flush_page s1.flush_page_row).length < n := by
        rw [hcont, List.length_drop]
        omega
      obtain ⟨rest, hrest, hflat, hsum⟩ := ih s1 hlen1
      refine ⟨s1.addresses :: rest, ?_, ?_, ?_⟩
      · have hflush : PartitionedPayload.flush bs pp s = some (s1, true) := hs1
        show flushRowBatches bs pp (n + 1) s = some (s1.addresses :: rest)
        simp only [flushRowBatches, hflush, hrest]
      · rw [List.flatten_cons, hflat, hcont, haddr, List.take_append_drop]
      · have hlentake : s1.addresses.length = s1.row_count := by
          rw [haddr, List.length_take]
          omega
        simp only [List.map_cons, List.sum_cons, hlentake, hsum, hcont, List.length_drop]
        omega

/-- Two page-loop runs from states with equal cursors stay in lockstep: they
abort together or return the same boolean with equal cursors, and a true
return carries identical group columns. -/
theorem flushPages_parallel (bs : Nat) (p : Payload) :
    ∀ (l : List Page) (s t : PayloadFlushState),
      s.flush_page = t.flush_page → s.flush_page_row = t.flush_page_row →
      s.flush_partition = t.flush_partition →
      (Payload.flushPages bs p l s = none ∧ Payload.flushPages bs p l t = none) ∨
      (∃ s1 t1 b, Payload.flushPages bs p l s = some (s1, b) ∧
        Payload.flushPages bs p l t = some (t1, b) ∧
        s1.flush_page = t1.flush_page ∧ s1.flush_page_row = t1.flush_page_row ∧
        s1.flush_partition = t1.flush_partition ∧
        (b = true → s1.group_columns = t1.group_columns)) := by
  intro l
  induction l with
  | nil =>
    intro s t h1 h2 h3
    exact Or.inr ⟨s, t, false, rfl, rfl, h1, h2, h3, by simp⟩
  | cons pg rest ih =>
    intro s t h1 h2 h3
    by_cases hc : pg.rows ≤ s.flush_page_row
    · have hct : pg.rows ≤ t.flush_page_row := h2 ▸ hc
      have := ih { s with flush_page := s.flush_page + 1, flush_page_row := 0, row_count := 0 }
        { t with flush_page := t.flush_page + 1, flush_page_row := 0, row_count := 0 }
        (by simp [h1]) rfl h3
      simpa only [Payload.flushPages, if_pos hc, if_pos hct] using this
    · have hct : ¬pg.rows ≤ t.flush_page_row := h2 ▸ hc
      have hGo : Payload.flushColumnsGo p (Payload.flushBatchState bs p pg s)
            (List.range p.group_types.length) =
          Payload.flushColumnsGo p (Payload.flushBatchState bs p pg t)
            (List.range p.group_types.length) :=
        flushColumnsGo_congr p _ _ (by simp [Payload.flushBatchState, h2])
          (by simp [Payload.flushBatchState, h2]) _
      cases hgs : Payload.flushColumnsGo p (Payload.flushBatchState bs p pg s)
          (List.range p.group_types.length) with
      | none =>
        have hgt := hGo.symm.trans hgs
        left
        constructor
        · simp only [Payload.flushPages, if_neg hc, hgs]
        · simp only [Payload.flushPages, if_neg hct, hgt]
      | some cols =>
        have hgt := hGo.symm.trans hgs
        right
        refine ⟨{ Payload.flushBatchState bs p pg s with
            group_columns := cols,
            flush_page_row := min (s.flush_page_row + bs) pg.rows },
          { Payload.flushBatchState bs p pg t with
            group_columns := cols,
            flush_page_row := min (t.flush_page_row + bs) pg.rows },
          true, ?_, ?_, ?_, ?_, ?_, ?_⟩
        · simp only [Payload.flushPages, if_neg hc, hgs]
        · simp only [Payload.flushPages, if_neg hct, hgt]
        · simp [Payload.flushBatchState, h1]
        · simp [Payload.flushBatchState, h2]
        · simp [Payload.flushBatchState, h3]
        · intro _
          simp [Payload.flushBatchState]

/-- Two partition-cascade runs from states with equal cursors stay in
lockstep. -/
theorem flushPartitions_parallel (bs : Nat) (pp : PartitionedPayload) :
    ∀ (l : List Payload) (s t : PayloadFlushState),
      s.flush_page = t.flush_page → s.flush_page_row = t.flush_page_row →
      s.flush_partition = t.flush_partition →
      (PartitionedPayload.flushPartitions bs pp l s = none ∧
        PartitionedPayload.flushPartitions bs pp l t = none) ∨
      (∃ s1 t1 b, PartitionedPayload.flushPartitions bs pp l s = some (s1, b) ∧
        PartitionedPayload.flushPartitions bs pp l t = some (t1, b) ∧
        s1.flush_page = t1.flush_page ∧ s1.flush_page_row = t1.flush_page_row ∧
        s1.flush_partition = t1.flush_partition ∧
        (b = true → s1.group_columns = t1.group_columns)) := by
  intro l
  induction l with
  | nil =>
    intro s t h1 h2 h3
    exact Or.inr ⟨s, t, false, rfl, rfl, h1, h2, h3, by simp⟩
  | cons p rest ih =>
    intro s t h1 h2 h3
    have hpl : p.pages.drop s.flush_page = p.pages.drop t.flush_page := by rw [h1]
    rcases flushPages_parallel bs p (p.pages.drop s.flush_page) s t h1 h2 h3 with
      ⟨hn1, hn2⟩ | ⟨s1, t1, b, hs1, ht1, g1, g2, g3, g4⟩
    · left
      constructor
      · simp only [PartitionedPayload.flushPartitions]
        rw [show Payload.flush bs p s = none from hn1]
      · simp only [PartitionedPayload.flushPartitions]
        rw [show Payload.flush bs p t = none from by
          show Payload.flushPages bs p (p.pages.drop t.flush_page) t = none
          rw [← hpl]
          exact hn2]
    · have hfs : Payload.flush bs p s = some (s1, b) := hs1
      have hft : Payload.flush bs p t = some (t1, b) := by
        show Payload.flushPages bs p (p.pages.drop t.flush_page) t = some (t1, b)
        rw [← hpl]
        exact ht1
      cases b with
      | true =>
        right
        refine ⟨s1, t1, true, ?_, ?_, g1, g2, g3, g4⟩
        · simp only [PartitionedPayload.flushPartitions, hfs]
        · simp only [PartitionedPayload.flushPartitions, hft]
      | false =>
        have := ih { s1.clear with flush_partition := s1.flush_partition + 1 }
          { t1.clear with flush_partition := t1.flush_partition + 1 }
          rfl rfl (by simp [PayloadFlushState.clear, g3])
        rcases this with ⟨hn1, hn2⟩ | ⟨s2, t2, b2, hs2, ht2, q1, q2, q3, q4⟩
        · left
          constructor
          · simp only [PartitionedPayload.flushPartitions, hfs]
            exact hn1
          · simp only [PartitionedPayload.flushPartitions, hft]
            exact hn2
        · right
          refine ⟨s2, t2, b2, ?_, ?_, q1, q2, q3, q4⟩
          · simp only [PartitionedPayload.flushPartitions, hfs]
            exact hs2
          · simp only [PartitionedPayload.flushPartitions, hft]
            exact ht2

/-- Two flush-loop runs from states with equal cursors produce identical
call-by-call observations (returned booleans and delivered batches). -/
theorem flushIter_parallel (bs : Nat) (pp : PartitionedPayload) :
    ∀ (n : Nat) (s t : PayloadFlushState),
      s.flush_page = t.flush_page → s.flush_page_row = t.flush_page_row →
      s.flush_partition = t.flush_partition →
      flushIter bs pp n s = flushIter bs pp n t := by
  intro n
  induction n with
  | zero => intro s t _ _ _; rfl
  | succ m ih =>
    intro s t h1 h2 h3
    have hpl : pp.payloads.drop s.flush_partition = pp.payloads.drop t.flush_partition := by
      rw [h3]
    rcases flushPartitions_parallel bs pp (pp.payloads.drop s.flush_partition) s t h1 h2 h3
      with ⟨hn1, hn2⟩ | ⟨s1, t1, b, hs1, ht1, g1, g2, g3, g4⟩
    · have hfs : PartitionedPayload.flush bs pp s = none := hn1
      have hft : PartitionedPayload.flush bs pp t = none := by
        show PartitionedPayload.flushPartitions bs pp (pp.payloads.drop t.flush_partition) t =
          none
        rw [← hpl]
        exact hn2
      simp only [flushIter, hfs, hft]
    · have hfs : PartitionedPayload.flush bs pp s = some (s1, b) := hs1
      have hft : PartitionedPayload.flush bs pp t = some (t1, b) := by
        show PartitionedPayload.flushPartitions bs pp (pp.payloads.drop t.flush_partition) t =
          some (t1, b)
        rw [← hpl]
        exact ht1
      cases b with
      | true =>
        simp only [flushIter, hfs, hft]
        rw [g4 rfl, ih s1 t1 g1 g2 g3]
      | false =>
        simp only [flushIter, hfs, hft]

/-- The instrumented page loop computes the same result as the page loop,
and its cascade-step count is bounded by the number of pages it can visit. -/
theorem flushPagesInstr_spec (bs : Nat) (p : Payload) :
    ∀ (l : List Page) (s : PayloadFlushState),
      (Payload.flushPagesInstr bs p l s).2 = Payload.flushPages bs p l s ∧
      (Payload.flushPagesInstr bs p l s).1 ≤ l.length := by
  intro l
  induction l with
  | nil => intro s; exact ⟨rfl, Nat.le_refl 0⟩
  | cons pg rest ih =>
    intro s
    by_cases hc : pg.rows ≤ s.flush_page_row
    · obtain ⟨ha, hb⟩ := ih
        { s with flush_page := s.flush_page + 1, flush_page_row := 0, row_count := 0 }
      constructor
      · simp only [Payload.flushPagesInstr, Payload.flushPages, if_pos hc]
        exact ha
      · simp only [Payload.flushPagesInstr, if_pos hc, List.length_cons]
        omega
    · constructor
      · simp only [Payload.flushPagesInstr, if_neg hc]
      · simp only [Payload.flushPagesInstr, if_neg hc, List.length_cons]
        omega

/-- The instrumented partition cascade computes the same result as the
partition cascade, and its total cascade-step count is bounded by one step
per visitable partition plus one step per page of each visitable
partition. -/
theorem flushPartitionsInstr_spec (bs : Nat) (pp : PartitionedPayload) :
    ∀ (l : List Payload) (s : PayloadFlushState),
      (PartitionedPayload.flushPartitionsInstr bs pp l s).2 =
        PartitionedPayload.flushPartitions bs pp l s ∧
      (PartitionedPayload.flushPartitionsInstr bs pp l s).1 ≤
        l.length + (l.map fun q => q.pages.length).sum := by
  intro l
  induction l with
  | nil => intro s; exact ⟨rfl, Nat.le_refl 0⟩
  | cons p rest ih =>
    intro s
    have hpage := flushPagesInstr_spec bs p (p.pages.drop s.flush_page) s
    have hpagebound : (Payload.flushPagesInstr bs p (p.pages.drop s.flush_page) s).1 ≤
        p.pages.length := by
      have h2 := hpage.2
      have h3 : (p.pages.drop s.flush_page).length ≤ p.pages.length := by
        rw [List.length_drop]
        omega
      omega
    cases hf : Payload.flush bs p s with
    | none =>
      constructor
      · simp only [PartitionedPayload.flushPartitionsInstr, PartitionedPayload.flushPartitions,
          hf]
      · simp only [PartitionedPayload.flushPartitionsInstr, hf, List.length_cons,
          List.map_cons, List.sum_cons]
        omega
    | some r =>
      obtain ⟨s1, b⟩ := r
      cases b with
      | true =>
        constructor
        · simp only [PartitionedPayload.flushPartitionsInstr,
            PartitionedPayload.flushPartitions, hf]
        · simp only [PartitionedPayload.flushPartitionsInstr, hf, List.length_cons,
            List.map_cons, List.sum_cons]
          omega
      | false =>
        obtain ⟨ha, hb⟩ := ih { s1.clear with flush_partition := s1.flush_partition + 1 }
        constructor
        · simp only [PartitionedPayload.flushPartitionsInstr,
            PartitionedPayload.flushPartitions, hf]
          exact ha
        · have hstep : (PartitionedPayload.flushPartitionsInstr bs pp (p :: rest) s).1 =
              (Payload.flushPagesInstr bs p (p.pages.drop s.flush_page) s).1 + 1 +
              (PartitionedPayload.flushPartitionsInstr bs pp rest
                { s1.clear with flush_partition := s1.flush_partition + 1 }).1 := by
            simp only [PartitionedPayload.flushPartitionsInstr, hf]
          rw [hstep, List.length_cons, List.map_cons, List.sum_cons]
          omega

/-- What a true return of the page loop guarantees about the final state,
with no assumption on the column types beyond the success itself. -/
theorem flushPages_true (bs : Nat) (p : Payload) :
    ∀ (l : List Page) (s s1 : PayloadFlushState),
      l = p.pages.drop s.flush_page →
      Payload.flushPages bs p l s = some (s1, true) →
      s1.row_count ≤ bs ∧
      s1.probe_state.row_count = s1.row_count ∧
      Payload.flushColumnsGo p s1 (List.range p.group_types.length) =
        some s1.group_columns ∧
      s1.flush_partition = s.flush_partition ∧
      (s1.row_count < bs → s1.flush_page_row = (p.pages.getD s1.flush_page Page.empty).rows) ∧
      (s1.flush_page_row < (p.pages.getD s1.flush_page Page.empty).rows →
        s1.row_count = bs) := by
  intro l
  induction l with
  | nil => intro s s1 hinv h; exact absurd h (by simp [Payload.flushPages])
  | cons pg rest ih =>
    intro s s1 hinv h
    have hinvpg : p.pages.drop s.flush_page = pg :: rest := hinv.symm
    by_cases hc : pg.rows ≤ s.flush_page_row
    · simp only [Payload.flushPages, if_pos hc] at h
      have hinv2 : rest = p.pages.drop
          ({ s with flush_page := s.flush_page + 1, flush_page_row := 0, row_count := 0 } :
            PayloadFlushState).flush_page :=
        (drop_succ_of_drop_cons hinvpg).symm
      simpa using ih _ s1 hinv2 h
    · simp only [Payload.flushPages, if_neg hc] at h
      cases hg : Payload.flushColumnsGo p (Payload.flushBatchState bs p pg s)
          (List.range p.group_types.length) with
      | none => rw [hg] at h; exact absurd h (by simp)
      | some cols =>
        rw [hg] at h
        simp only [Option.some.injEq, Prod.mk.injEq] at h
        obtain ⟨h1, _⟩ := h
        subst h1
        refine ⟨?_, ?_, ?_, ?_, ?_, ?_⟩
        · simp only [Payload.flushBatchState]
          omega
        · simp [Payload.flushBatchState]
        · refine Eq.trans
            (flushColumnsGo_congr p
              { Payload.flushBatchState bs p pg s with
                group_columns := cols,
                flush_page_row := min (s.flush_page_row + bs) pg.rows }
              (Payload.flushBatchState bs p pg s) rfl rfl
              (List.range p.group_types.length)) ?_
          exact hg
        · simp [Payload.flushBatchState]
        · intro hklt
          simp only [Payload.flushBatchState] at hklt ⊢
          rw [getD_of_drop_cons hinvpg]
          omega
        · intro hlt2
          simp only [Payload.flushBatchState] at hlt2 ⊢
          rw [getD_of_drop_cons hinvpg] at hlt2
          omega

/-- What a true return of the partition cascade guarantees about the final
state, relative to the partition the cursor finally landed on. -/
theorem flushPartitions_true (bs : Nat) (pp : PartitionedPayload) :
    ∀ (l : List Payload) (s s1 : PayloadFlushState),
      l = pp.payloads.drop s.flush_partition →
      PartitionedPayload.flushPartitions bs pp l s = some (s1, true) →
      s1.row_count ≤ bs ∧
      s1.probe_state.row_count = s1.row_count ∧
      Payload.flushColumnsGo (pp.payloads.getD s1.flush_partition Payload.empty) s1
        (List.range (pp.payloads.getD s1.flush_partition Payload.empty).group_types.length) =
        some s1.group_columns ∧
      (s1.row_count < bs → s1.flush_page_row =
        ((pp.payloads.getD s1.flush_partition Payload.empty).pages.getD
          s1.flush_page Page.empty).rows) ∧
      (s1.flush_page_row <
        ((pp.payloads.getD s1.flush_partition Payload.empty).pages.getD
          s1.flush_page Page.empty).rows → s1.row_count = bs) := by
  intro l
  induction l with
  | nil =>
    intro s s1 hinv h
    exact absurd h (by simp [PartitionedPayload.flushPartitions])
  | cons p rest ih =>
    intro s s1 hinv h
    have hp : pp.payloads.drop s.flush_partition = p :: rest := hinv.symm
    have hgetp : pp.payloads.getD s.flush_partition Payload.empty = p :=
      getD_of_drop_cons hp Payload.empty
    simp only [PartitionedPayload.flushPartitions] at h
    cases hf : Payload.flush bs p s with
    | none => rw [hf] at h; exact absurd h (by simp)
    | some r =>
      obtain ⟨s2, b2⟩ := r
      rw [hf] at h
      cases b2 with
      | true =>
        simp only [Option.some.injEq, Prod.mk.injEq] at h
        obtain ⟨h1, _⟩ := h
        subst h1
        obtain ⟨q1, q2, q3, q4, q5, q6⟩ :=
          flushPages_true bs p (p.pages.drop s.flush_page) s s2 rfl hf
        rw [q4, hgetp]
        exact ⟨q1, q2, q3, q5, q6⟩
      | false =>
        have hfp2 : s2.flush_partition = s.flush_partition :=
          (flushPages_frame bs p _ s s2 false hf).1
        have hinv2 : rest = pp.payloads.drop
            ({ s2.clear with flush_partition := s2.flush_partition + 1 } :
              PayloadFlushState).flush_partition := by
          show rest = pp.payloads.drop (s2.flush_partition + 1)
          rw [hfp2]
          exact (drop_succ_of_drop_cons hp).symm
        exact ih _ s1 hinv2 h

/-- With every group type of the payload supported, the page loop never
aborts. -/
theorem flushPages_ne_none (bs : Nat) (p : Payload)
    (hsup : ∀ t ∈ p.group_types, t.flushSupported = true) :
    ∀ (l : List Page) (s : PayloadFlushState), Payload.flushPages bs p l s ≠ none := by
  intro l
  induction l with
  | nil => intro s; simp [Payload.flushPages]
  | cons pg rest ih =>
    intro s
    by_cases hc : pg.rows ≤ s.flush_page_row
    · simp only [Payload.flushPages, if_pos hc]
      exact ih _
    · simp only [Payload.flushPages, if_neg hc]
      obtain ⟨cols, hcols⟩ := flushColumnsGo_some p (Payload.flushBatchState bs p pg s)
        (List.range p.group_types.length)
        (fun i hi => flush_column_ne_none p i _
          (hsup _ (getD_mem p.group_types i DataType.null (List.mem_range.mp hi))))
      rw [hcols]
      simp

/-- With every group type of every partition supported, the partition
cascade never aborts. -/
theorem flushPartitions_ne_none (bs : Nat) (pp : PartitionedPayload) :
    ∀ (l : List Payload) (s : PayloadFlushState),
      (∀ p ∈ l, ∀ t ∈ p.group_types, t.flushSupported = true) →
      PartitionedPayload.flushPartitions bs pp l s ≠ none := by
  intro l
  induction l with
  | nil => intro s _; simp [PartitionedPayload.flushPartitions]
  | cons p rest ih =>
    intro s hsup
    simp only [PartitionedPayload.flushPartitions]
    cases hf : Payload.flush bs p s with
    | none =>
      exact absurd hf (flushPages_ne_none bs p
        (hsup p (List.mem_cons_self p rest)) (p.pages.drop s.flush_page) s)
    | some r =>
      obtain ⟨s2, b2⟩ := r
      cases b2 with
      | true => simp
      | false => exact ih _ (fun q hq => hsup q (List.mem_cons_of_mem p hq))

/-- When some group-key column has a compound type and rows remain, the page
loop reaches the batch and aborts. -/
theorem flushPages_abort (bs : Nat) (p : Payload) (i : Nat)
    (hi : i < p.group_types.length)
    (hcomp : ((p.group_types.getD i DataType.null).remove_nullable).isCompound = true) :
    ∀ (l : List Page) (s : PayloadFlushState),
      pagesRemaining l s.flush_page_row ≠ [] →
      Payload.flushPages bs p l s = none := by
  intro l
  induction l with
  | nil => intro s hrem; exact absurd rfl hrem
  | cons pg rest ih =>
    intro s hrem
    by_cases hc : pg.rows ≤ s.flush_page_row
    · have h1 : pg.data.drop s.flush_page_row = [] :=
        List.drop_eq_nil_iff.mpr (by simpa [Page.rows] using hc)
      simp only [Payload.flushPages, if_pos hc]
      apply ih
      show pagesRemaining rest 0 ≠ []
      rw [pagesRemaining_zero]
      intro hflat
      apply hrem
      simp [pagesRemaining, h1, hflat]
    · simp only [Payload.flushPages, if_neg hc]
      rw [flushColumnsGo_none p _ (List.range p.group_types.length) i
        (List.mem_range.mpr hi) (flush_column_none_of_compound p i _ hcomp)]

/-- Two partitions that are both empty. -/
def emptyScenario : PartitionedPayload :=
  ⟨[⟨[], [.number .int64], []⟩, ⟨[], [.number .int64], []⟩]⟩

/-- One partition, one page of two rows of one nullable 64-bit integer
group column: the first row valid with value 5, the second invalid with
stored value 7. -/
def nullableScenario : PartitionedPayload :=
  ⟨[⟨[⟨[⟨0, 0, [⟨5, false, [], true⟩]⟩, ⟨0, 0, [⟨7, false, [], false⟩]⟩]⟩],
    [.nullable (.number .int64)], []⟩]⟩

/-- One partition, one page of one row, whose single group column has the
unimplemented tuple type. -/
def compoundScenario : Payload :=
  ⟨[⟨[⟨0, 0, [⟨0, false, [], false⟩]⟩]⟩], [.tuple], []⟩

/-- A flush state with a nonzero cursor, nonempty scratch buffers and
nonempty accumulated outputs. -/
def dirtyState : PayloadFlushState :=
  ⟨⟨2, [5]⟩, [Column.Null 1], [Column.Null 2], 3, 1, 2, 3, [intRow 1], [7]⟩

/-- The state after taking the columns of the first call on scenario 1. -/
def c8AfterOne : PayloadFlushState :=
  ((afterCall 4 scenarioOne PayloadFlushState.default).take_group_columns).2

/-- The state after taking the columns of the second call on scenario 1. -/
def c8AfterTwo : PayloadFlushState :=
  ((afterCall 4 scenarioOne c8AfterOne).take_group_columns).2

/-- C1: for every PartitionedPayload holding a total of R rows across all
partitions and pages, repeatedly calling flush on a fresh PayloadFlushState
until it returns false produces a sequence of batches whose row counts sum
to exactly R, and whose concatenation reproduces the rows in
partition-index order, then page order within a partition, then in-page
insertion order. -/
theorem c1_row_conservation_and_order (bs : Nat) (pp : PartitionedPayload)
    (hbs : 0 < bs)
    (hsup : ∀ p ∈ pp.payloads, ∀ t ∈ p.group_types, t.flushSupported = true) :
    ∃ batches, flushRowBatches bs pp (pp.allRows.length + 1) PayloadFlushState.default =
      some batches ∧
      (batches.map List.length).sum = pp.allRows.length ∧
      batches.flatten = pp.allRows := by
  have h0 : partRemaining (pp.payloads.drop PayloadFlushState.default.flush_partition)
      PayloadFlushState.default.flush_page PayloadFlushState.default.flush_page_row =
      pp.allRows := by
    show partRemaining (pp.payloads.drop 0) 0 0 = pp.allRows
    rw [List.drop_zero, partRemaining_zero]
    rfl
  obtain ⟨batches, h1, h2, h3⟩ := flushRowBatches_spec bs pp hbs hsup
    (pp.allRows.length + 1) PayloadFlushState.default (by rw [h0]; omega)
  exact ⟨batches, h1, by rw [h3, h0], by rw [h2, h0]⟩

/-- Witness for C1 at scenario 1 with `BATCH_SIZE` 4. -/
theorem c1_witness :
    0 < 4 ∧
    (∀ p ∈ scenarioOne.payloads, ∀ t ∈ p.group_types, t.flushSupported = true) ∧
    ∃ batches, flushRowBatches 4 scenarioOne (scenarioOne.allRows.length + 1)
      PayloadFlushState.default = some batches ∧
      (batches.map List.length).sum = scenarioOne.allRows.length ∧
      batches.flatten = scenarioOne.allRows :=
  ⟨by decide, by decide,
    c1_row_conservation_and_order 4 scenarioOne (by decide) (by decide)⟩

/-- C2: when the current partition is exhausted the cursor's page and row
fields are reset and the partition index advances by one before retrying;
flush returns false only once the partition index passes the last
partition; a PartitionedPayload all of whose partitions are empty returns
false on the very first flush with no output columns and no failure; and a
non-empty later partition is reached by cascading past empty leading
partitions, as in scenario 2 of the spec. -/
theorem c2_partition_cascade (bs : Nat) (pp : PartitionedPayload) :
    (∀ s s2 : PayloadFlushState, s.flush_partition < pp.payloads.length →
      Payload.flush bs (pp.payloads.getD s.flush_partition Payload.empty) s =
        some (s2, false) →
      PartitionedPayload.flush bs pp s =
        PartitionedPayload.flush bs pp
          { s2.clear with flush_partition := s2.flush_partition + 1 } ∧
      (s2.clear).flush_page = 0 ∧ (s2.clear).flush_page_row = 0) ∧
    (∀ s s1 : PayloadFlushState, PartitionedPayload.flush bs pp s = some (s1, false) →
      pp.payloads.length ≤ s1.flush_partition) ∧
    ((∀ p ∈ pp.payloads, p.allRows = []) →
      ∃ s1, PartitionedPayload.flush bs pp PayloadFlushState.default = some (s1, false) ∧
        s1.group_columns = []) ∧
    (callResult 4 scenarioTwo PayloadFlushState.default = some true ∧
      (afterCall 4 scenarioTwo PayloadFlushState.default).group_columns =
        [Column.Number .int64 [1, 2, 3]] ∧
      callResult 4 scenarioTwo
        ((afterCall 4 scenarioTwo PayloadFlushState.default).take_group_columns).2 =
        some false) := by
  refine ⟨?_, ?_, ?_, ?_⟩
  · intro s s2 hlt hpf
    have hdrop : pp.payloads.drop s.flush_partition =
        pp.payloads.getD s.flush_partition Payload.empty ::
          pp.payloads.drop (s.flush_partition + 1) := by
      cases hd : pp.payloads.drop s.flush_partition with
      | nil =>
        exfalso
        have := List.drop_eq_nil_iff.mp hd
        omega
      | cons q rest2 =>
        rw [getD_of_drop_cons hd, drop_succ_of_drop_cons hd]
    have hfp2 : s2.flush_partition = s.flush_partition :=
      (flushPages_frame bs _ _ s s2 false hpf).1
    refine ⟨?_, rfl, rfl⟩
    show PartitionedPayload.flushPartitions bs pp (pp.payloads.drop s.flush_partition) s = _
    rw [hdrop]
    simp only [PartitionedPayload.flushPartitions, hpf]
    show PartitionedPayload.flushPartitions bs pp
        (pp.payloads.drop (s.flush_partition + 1)) _ =
      PartitionedPayload.flushPartitions bs pp
        (pp.payloads.drop (s2.flush_partition + 1)) _
    rw [hfp2]
  · intro s s1 hflush
    obtain ⟨_, hfp⟩ := (flushPartitions_frame bs pp
      (pp.payloads.drop s.flush_partition) s s1 false hflush).2 rfl
    rw [List.length_drop] at hfp
    omega
  · intro hempty
    have hrem : partRemaining
        (pp.payloads.drop PayloadFlushState.default.flush_partition)
        PayloadFlushState.default.flush_page
        PayloadFlushState.default.flush_page_row = [] := by
      show partRemaining (pp.payloads.drop 0) 0 0 = []
      rw [List.drop_zero, partRemaining_zero]
      rw [List.flatten_eq_nil_iff]
      intro xs hxs
      obtain ⟨p, hp, hpx⟩ := List.mem_map.mp hxs
      rw [← hpx]
      exact hempty p hp
    obtain ⟨s1, hs1⟩ := flushPartitions_exhausted bs pp
      (pp.payloads.drop PayloadFlushState.default.flush_partition)
      PayloadFlushState.default hrem
    refine ⟨s1, hs1, ?_⟩
    exact ((flushPartitions_frame bs pp _ _ s1 false hs1).2 rfl).1
  · exact ⟨by decide, by decide, by decide⟩

/-- Witness for C2 at the all-empty two-partition payload with
`BATCH_SIZE` 4. -/
theorem c2_witness :
    ∃ s1, PartitionedPayload.flush 4 emptyScenario PayloadFlushState.default =
      some (s1, false) ∧ s1.group_columns = [] :=
  (c2_partition_cascade 4 emptyScenario).2.2.1 (by decide)

/-- C3: every batch produced by a single flush call has row count at most
`BATCH_SIZE`, and within any one page only the final batch drawn from that
page may have fewer than `BATCH_SIZE` rows: a batch that stops short of its
page's row count has exactly `BATCH_SIZE` rows, and a short batch ends
exactly at its page's row count. -/
theorem c3_batch_bound (bs : Nat) (pp : PartitionedPayload)
    (s s1 : PayloadFlushState)
    (h : PartitionedPayload.flush bs pp s = some (s1, true)) :
    s1.row_count ≤ bs ∧
    (s1.row_count < bs → s1.flush_page_row =
      ((pp.payloads.getD s1.flush_partition Payload.empty).pages.getD
        s1.flush_page Page.empty).rows) ∧
    (s1.flush_page_row <
      ((pp.payloads.getD s1.flush_partition Payload.empty).pages.getD
        s1.flush_page Page.empty).rows → s1.row_count = bs) := by
  obtain ⟨q1, _, _, q4, q5⟩ := flushPartitions_true bs pp
    (pp.payloads.drop s.flush_partition) s s1 rfl h
  exact ⟨q1, q4, q5⟩

/-- Witness for C3 at scenario 1 with `BATCH_SIZE` 4. -/
theorem c3_witness :
    (afterCall 4 scenarioOne PayloadFlushState.default).row_count ≤ 4 ∧
    ((afterCall 4 scenarioOne PayloadFlushState.default).row_count < 4 →
      (afterCall 4 scenarioOne PayloadFlushState.default).flush_page_row =
      ((scenarioOne.payloads.getD
          (afterCall 4 scenarioOne PayloadFlushState.default).flush_partition
          Payload.empty).pages.getD
        (afterCall 4 scenarioOne PayloadFlushState.default).flush_page
          Page.empty).rows) ∧
    ((afterCall 4 scenarioOne PayloadFlushState.default).flush_page_row <
      ((scenarioOne.payloads.getD
          (afterCall 4 scenarioOne PayloadFlushState.default).flush_partition
          Payload.empty).pages.getD
        (afterCall 4 scenarioOne PayloadFlushState.default).flush_page
          Page.empty).rows →
      (afterCall 4 scenarioOne PayloadFlushState.default).row_count = 4) :=
  c3_batch_bound 4 scenarioOne PayloadFlushState.default _ (by decide)

/-- C4: calling `clear()` on any flush state and then re-flushing from
scratch reproduces a call-by-call observation sequence (returned booleans
and delivered group-column batches) identical to a run from a fresh
default state; the payload itself is taken immutably by the embedding, so
no flush call can mutate its pages, schema, or row memory. -/
theorem c4_restart_idempotence (bs : Nat) (pp : PartitionedPayload)
    (s : PayloadFlushState) (n : Nat) :
    flushIter bs pp n s.clear = flushIter bs pp n PayloadFlushState.default :=
  flushIter_parallel bs pp n s.clear PayloadFlushState.default rfl rfl rfl

/-- C5: for every group-key column whose logical type, after stripping a
nullable wrapper, is an array, map, or tuple type, unpacking that column
during flush is a fatal abort (embedded as `none`, standing for the Rust
panic: the source's return type carries no error value at all), the abort
reaches any flush call that produces a batch over such a schema, and with a
well-formed, fully supported schema a flush call never aborts and never
produces any failure. -/
theorem c5_unsupported_type_abort :
    (∀ (p : Payload) (i : Nat) (st : PayloadFlushState),
      ((p.group_types.getD i DataType.null).remove_nullable).isCompound = true →
      p.flush_column i st = none) ∧
    (∀ (bs : Nat) (p : Payload), 0 < bs → p.allRows ≠ [] →
      (∃ i, i < p.group_types.length ∧
        ((p.group_types.getD i DataType.null).remove_nullable).isCompound = true) →
      Payload.flush bs p PayloadFlushState.default = none) ∧
    (∀ (bs : Nat) (pp : PartitionedPayload) (st : PayloadFlushState),
      (∀ p ∈ pp.payloads, ∀ t ∈ p.group_types, t.flushSupported = true) →
      PartitionedPayload.flush bs pp st ≠ none) := by
  refine ⟨?_, ?_, ?_⟩
  · intro p i st h
    exact flush_column_none_of_compound p i st h
  · intro bs p _ hrows hex
    obtain ⟨i, hi, hcomp⟩ := hex
    show Payload.flushPages bs p (p.pages.drop 0) PayloadFlushState.default = none
    rw [List.drop_zero]
    apply flushPages_abort bs p i hi hcomp
    show pagesRemaining p.pages 0 ≠ []
    rw [pagesRemaining_zero]
    exact hrows
  · intro bs pp st hsup
    exact flushPartitions_ne_none bs pp _ st
      (fun p hp => hsup p (List.drop_subset st.flush_partition pp.payloads hp))

/-- Witness for C5: a tuple-typed column aborts at the column and at the
flush call, while scenario 1 with its supported schema never aborts. -/
theorem c5_witness :
    compoundScenario.flush_column 0 PayloadFlushState.default = none ∧
    Payload.flush 4 compoundScenario PayloadFlushState.default = none ∧
    PartitionedPayload.flush 4 scenarioOne PayloadFlushState.default ≠ none :=
  ⟨c5_unsupported_type_abort.1 compoundScenario 0 PayloadFlushState.default (by decide),
   c5_unsupported_type_abort.2.1 4 compoundScenario (by decide) (by decide)
     ⟨0, by decide, by decide⟩,
   c5_unsupported_type_abort.2.2 4 scenarioOne PayloadFlushState.default (by decide)⟩

/-- C6 as stated is false: `clear` does not zero the transient per-call
scratch buffers.  At a state with nonempty scratch, `clear` leaves
`addresses`, `state_places` and the probe scratch exactly as they were,
all different from their zeroed default values. -/
theorem c6_counterexample :
    (dirtyState.clear).addresses = dirtyState.addresses ∧
    dirtyState.addresses ≠ PayloadFlushState.default.addresses ∧
    (dirtyState.clear).state_places = dirtyState.state_places ∧
    dirtyState.state_places ≠ PayloadFlushState.default.state_places ∧
    (dirtyState.clear).probe_state = dirtyState.probe_state ∧
    dirtyState.probe_state ≠ PayloadFlushState.default.probe_state := by
  exact ⟨rfl, by decide, rfl, by decide, rfl, by decide⟩

/-- C6 amended: `clear` zeroes the flush cursor (`flush_partition`,
`flush_page`, `flush_page_row`) and the transient row count, and leaves
every other field — the accumulated `group_columns` and
`aggregate_results`, and also the scratch `addresses`, `state_places` and
probe scratch — unchanged. -/
theorem c6_clear_amended (s : PayloadFlushState) :
    (s.clear).flush_partition = 0 ∧ (s.clear).flush_page = 0 ∧
    (s.clear).flush_page_row = 0 ∧ (s.clear).row_count = 0 ∧
    (s.clear).group_columns = s.group_columns ∧
    (s.clear).aggregate_results = s.aggregate_results ∧
    (s.clear).addresses = s.addresses ∧
    (s.clear).state_places = s.state_places ∧
    (s.clear).probe_state = s.probe_state :=
  ⟨rfl, rfl, rfl, rfl, rfl, rfl, rfl, rfl, rfl⟩

/-- C7: every batch flushed from a nullable group-key column is a tagged
nullable column whose validity length equals its inner data length, both
equal to the batch's row count. -/
theorem c7_nullable_batch_lengths (bs : Nat) (pp : PartitionedPayload)
    (s s1 : PayloadFlushState)
    (h : PartitionedPayload.flush bs pp s = some (s1, true)) (i : Nat)
    (hi : i < (pp.payloads.getD s1.flush_partition Payload.empty).group_types.length)
    (hn : ((pp.payloads.getD s1.flush_partition Payload.empty).group_types.getD i
      DataType.null).is_nullable = true) :
    ∃ inner validity, s1.group_columns.getD i (Column.Null 0) =
      Column.Nullable inner validity ∧
      validity.length = s1.row_count ∧ inner.len = s1.row_count := by
  obtain ⟨_, hprobe, hGo, _, _⟩ := flushPartitions_true bs pp
    (pp.payloads.drop s.flush_partition) s s1 rfl h
  obtain ⟨hlen, hall⟩ := flushColumnsGo_spec _ s1 _ _ hGo
  have hcol := hall i (by simpa using hi)
  have hrange : (List.range (pp.payloads.getD s1.flush_partition
      Payload.empty).group_types.length).getD i 0 = i := by
    rw [List.getD_eq_getElem?_getD, List.getElem?_range hi]
    rfl
  rw [hrange] at hcol
  obtain ⟨_, hshape⟩ := flush_column_shape _ i s1 _ hcol
  obtain ⟨inner, validity, hEq, hv, hinner⟩ := hshape hn
  exact ⟨inner, validity, by rw [← hEq], by rw [hv, hprobe], by rw [hinner, hprobe]⟩

/-- Witness for C7 at a two-row nullable integer column with
`BATCH_SIZE` 4. -/
theorem c7_witness :
    ∃ inner validity,
      (afterCall 4 nullableScenario PayloadFlushState.default).group_columns.getD 0
        (Column.Null 0) = Column.Nullable inner validity ∧
      validity.length = (afterCall 4 nullableScenario PayloadFlushState.default).row_count ∧
      inner.len = (afterCall 4 nullableScenario PayloadFlushState.default).row_count :=
  c7_nullable_batch_lengths 4 nullableScenario PayloadFlushState.default _ (by decide) 0
    (by decide) (by decide)

/-- C8: with `BATCH_SIZE` 4 and one partition holding one page of six rows
of a single non-nullable integer group column `[10,20,30,40,50,60]`, with
the consumer taking ownership of the columns after each batch: the first
call returns true with column `[10,20,30,40]`, the second returns true with
`[50,60]`, and the third returns false delivering no columns. -/
theorem c8_scenario_one :
    callResult 4 scenarioOne PayloadFlushState.default = some true ∧
    (afterCall 4 scenarioOne PayloadFlushState.default).group_columns =
      [Column.Number .int64 [10, 20, 30, 40]] ∧
    callResult 4 scenarioOne c8AfterOne = some true ∧
    (afterCall 4 scenarioOne c8AfterOne).group_columns =
      [Column.Number .int64 [50, 60]] ∧
    callResult 4 scenarioOne c8AfterTwo = some false ∧
    (afterCall 4 scenarioOne c8AfterTwo).group_columns = [] := by
  refine ⟨by decide, by decide, by decide, by decide, by decide, by decide⟩

/-- C9: both flush routines are total functions of the embedding (every
call terminates by construction), and the instrumented cascade — which
computes the very same result — takes at most one step per partition plus
one step per page of the payload, whatever the starting cursor. -/
theorem c9_termination_bound (bs : Nat) (pp : PartitionedPayload)
    (s : PayloadFlushState) :
    (PartitionedPayload.flushPartitionsInstr bs pp
      (pp.payloads.drop s.flush_partition) s).2 = PartitionedPayload.flush bs pp s ∧
    (PartitionedPayload.flushPartitionsInstr bs pp
      (pp.payloads.drop s.flush_partition) s).1 ≤
      pp.payloads.length + (pp.payloads.map fun q => q.pages.length).sum := by
  obtain ⟨ha, hb⟩ := flushPartitionsInstr_spec bs pp
    (pp.payloads.drop s.flush_partition) s
  refine ⟨ha, le_trans hb ?_⟩
  have h1 : (pp.payloads.drop s.flush_partition).length ≤ pp.payloads.length := by
    rw [List.length_drop]
    omega
  have h2 : ((pp.payloads.drop s.flush_partition).map fun q => q.pages.length).sum ≤
      (pp.payloads.map fun q => q.pages.length).sum := by
    rw [List.map_drop]
    have h3 : ((pp.payloads.map fun q => q.pages.length).take s.flush_partition).sum +
        ((pp.payloads.map fun q => q.pages.length).drop s.flush_partition).sum =
        (pp.payloads.map fun q => q.pages.length).sum := by
      rw [← List.sum_append, List.take_append_drop]
    omega
  omega

/-- C10: no call to `Payload::flush` or `PartitionedPayload::flush` ever
modifies `state.aggregate_results`, whatever boolean it returns. -/
theorem c10_aggregate_results_frame (bs : Nat) :
    (∀ (p : Payload) (s s1 : PayloadFlushState) (b : Bool),
      Payload.flush bs p s = some (s1, b) →
      s1.aggregate_results = s.aggregate_results) ∧
    (∀ (pp : PartitionedPayload) (s s1 : PayloadFlushState) (b : Bool),
      PartitionedPayload.flush bs pp s = some (s1, b) →
      s1.aggregate_results = s.aggregate_results) := by
  constructor
  · intro p s s1 b h
    exact (flushPages_frame bs p (p.pages.drop s.flush_page) s s1 b h).2.1
  · intro pp s s1 b h
    exact (flushPartitions_frame bs pp (pp.payloads.drop s.flush_partition) s s1 b h).1

/-- Witness for C10 at scenario 1 with `BATCH_SIZE` 4, at both the
partitioned and the single-payload level. -/
theorem c10_witness :
    (afterCall 4 scenarioOne PayloadFlushState.default).aggregate_results =
      PayloadFlushState.default.aggregate_results ∧
    ((Payload.flush 4 (scenarioOne.payloads.getD 0 Payload.empty)
        PayloadFlushState.default).getD
      (PayloadFlushState.default, false)).1.aggregate_results =
      PayloadFlushState.default.aggregate_results :=
  ⟨(c10_aggregate_results_frame 4).2 scenarioOne PayloadFlushState.default _ true
     (by decide),
   (c10_aggregate_results_frame 4).1 (scenarioOne.payloads.getD 0 Payload.empty)
     PayloadFlushState.default _ true (by decide)⟩

end Datafuse
